import Mathlib

/-!
# RedisBoard: a shallow embedding of the leaderboard core

This file embeds the Go package `redisboard` (a Redis-backed leaderboard) in
Lean 4 and proves properties of its operations.

The mutable state living in Redis is modelled explicitly:
* the global sorted set `{ns}:global` becomes an association list `Zset`
  mapping member identifiers to scores (`ZADD`/`ZINCRBY`/`ZREM`/`ZSCORE`
  are modelled pointwise; order queries sort on demand, exactly as a Redis
  sorted set presents the descending `(score, member)` order);
* the hash `{ns}:user:entities` becomes an association list `Hash`
  (`HSET`/`HGET`/`HDEL`);
* the per-entity sorted sets `{ns}:entity:{code}` become an association list
  from entity tag to `Zset` (`Groups`): a key that was never written behaves
  as the empty sorted set, exactly as a missing Redis key does.

Scores are Go `float64` values; every arithmetic the code performs on them
(addition, comparison with 0, truncation toward zero via `float64(int(x))`)
is exact on the rationals for the magnitudes the library manipulates, so
scores are modelled as `ℚ` and `float64(int(x))` as `truncQ` (floor for
non-negative values, ceiling for negative ones, i.e. truncation toward zero).

Redis backend failures (connection loss, pipeline execution failure) are the
only error paths of the Go code that are not modelled: in this embedding every
Redis command succeeds, and `redis.Nil` ("no such member/field") is the
`Option.none` case of the read commands, which is exactly how the Go code
branches on it.  All remaining error returns of the Go functions are modelled
with `Except Err`.
-/

/-- Error taxonomy of the coordinator, following the Go error messages. -/
inductive Err where
  | invalidInput (msg : String)
  | notFound (msg : String)
  | emptyScope (msg : String)
deriving DecidableEq

/-- A Redis sorted set: association list from member to score.
Members are unique in every state reachable through the API. -/
abbrev Zset := List (String × ℚ)

/-- A Redis hash: association list from field to value. -/
abbrev Hash := List (String × String)

/-- The per-entity sorted sets, keyed by entity tag
(the `{ns}:entity:{code}` keys, with the namespace prefix dropped since a
single `Leaderboard` instance works inside a single namespace). -/
abbrev Groups := List (String × Zset)

/-- Lookup in an association list (the value stored under a key). -/
def lookupA {α : Type} : List (String × α) → String → Option α
  | [], _ => none
  | (k, w) :: rest, m => if k = m then some w else lookupA rest m

/-- Insert-or-overwrite in an association list. -/
def upsertA {α : Type} : List (String × α) → String → α → List (String × α)
  | [], m, v => [(m, v)]
  | (k, w) :: rest, m, v =>
      if k = m then (m, v) :: rest else (k, w) :: upsertA rest m v

/-- Delete a key from an association list; no-op when absent. -/
def removeA {α : Type} : List (String × α) → String → List (String × α)
  | [], _ => []
  | (k, w) :: rest, m =>
      if k = m then removeA rest m else (k, w) :: removeA rest m

/-- Apply `f` to the value stored under a key; no-op when the key is
absent (in particular, it creates nothing). -/
def adjustA {α : Type} : List (String × α) → String → (α → α) → List (String × α)
  | [], _, _ => []
  | (k, w) :: rest, m, f =>
      if k = m then (k, f w) :: adjustA rest m f
      else (k, w) :: adjustA rest m f

/-- `ZSCORE`: the score of a member, `none` when absent (`redis.Nil`). -/
def zscore (z : Zset) (m : String) : Option ℚ := lookupA z m

/-- `ZADD`: insert the member or overwrite its score. -/
def zadd (z : Zset) (m : String) (s : ℚ) : Zset := upsertA z m s

/-- `ZINCRBY`: add `d` to the member's score, treating an absent member as
holding score 0 (so it is created at `d`). -/
def zincrby (z : Zset) (d : ℚ) (m : String) : Zset :=
  upsertA z m ((lookupA z m).getD 0 + d)

/-- `ZREM`: delete the member; no-op when absent. -/
def zrem (z : Zset) (m : String) : Zset := removeA z m

/-- `HGET`: the value of a field, `none` when absent (`redis.Nil`). -/
def hget (h : Hash) (m : String) : Option String := lookupA h m

/-- `HSET`: insert the field or overwrite its value. -/
def hset (h : Hash) (m v : String) : Hash := upsertA h m v

/-- `HDEL`: delete the field; no-op when absent. -/
def hdel (h : Hash) (m : String) : Hash := removeA h m

/-- Read one entity's sorted set; a never-written key is the empty set,
exactly as a missing Redis key behaves. -/
def getG (gs : Groups) (g : String) : Zset := (lookupA gs g).getD []

/-- Write one entity's sorted set (creating the key when absent). -/
def setG (gs : Groups) (g : String) (z : Zset) : Groups := upsertA gs g z

/-- `ZADD` against entity `g`'s sorted set. -/
def zaddG (gs : Groups) (g m : String) (s : ℚ) : Groups :=
  setG gs g (zadd (getG gs g) m s)

/-- `ZINCRBY` against entity `g`'s sorted set. -/
def zincrbyG (gs : Groups) (g m : String) (d : ℚ) : Groups :=
  setG gs g (zincrby (getG gs g) d m)

/-- `ZREM` against entity `g`'s sorted set; like Redis, removing from a
key that does not exist creates nothing. -/
def zremG (gs : Groups) (g m : String) : Groups :=
  adjustA gs g (fun z => zrem z m)

/-- The whole mutable state of one leaderboard namespace. -/
structure LB where
  global : Zset
  dir : Hash
  groups : Groups
deriving DecidableEq

/-- A freshly initialized, empty namespace. -/
def LB.empty : LB := ⟨[], [], []⟩

/-- The configuration fields the core's behavior depends on
(`Namespace`, `MaxUsers`, `MaxEntities` and the connection fields do not
influence any modelled operation).  `New` normalizes `K <= 0` to `10`,
so every constructed leaderboard has `1 ≤ K`; `K` is kept as `Nat`. -/
structure Config where
  FloatScores : Bool
  K : Nat
deriving DecidableEq

/-- `User` as in the Go source. -/
structure User where
  ID : String
  Entity : String
  Score : ℚ
deriving DecidableEq

/-- `LeaderboardData` as in the Go source (ranks are `int`, `-1` = absent). -/
structure LeaderboardData where
  UserID : String
  Score : ℚ
  Entity : String
  GlobalRank : Int
  EntityRank : Int
  TopKGlobal : List User
  TopKEntity : List User
deriving DecidableEq

/-- Go's `float64(int(x))`: truncation toward zero. -/
def truncQ (q : ℚ) : ℚ := if q < 0 then (⌈q⌉ : ℤ) else ((⌊q⌋ : ℤ) : ℚ)

/-- The score-precision policy: `if !lb.config.FloatScores { x = float64(int(x)) }`. -/
def roundScore (cfg : Config) (q : ℚ) : ℚ :=
  if cfg.FloatScores then q else truncQ q

/-- A rational that is (the embedding of) an integer. -/
def IsInt (q : ℚ) : Prop := ∃ n : ℤ, q = (n : ℚ)

/-- `Leaderboard.AddUser`: validates, applies the precision policy, then in
one pipeline `ZADD`s the global set, `HSET`s the directory and, when an
entity is given, `ZADD`s that entity's set. -/
def AddUser (cfg : Config) (s : LB) (u : User) : Except Err LB :=
  if u.ID = "" ∨ u.Score < 0 then
    .error (.invalidInput "invalid user ID or score")
  else
    let score := roundScore cfg u.Score
    .ok { global := zadd s.global u.ID score,
          dir := hset s.dir u.ID u.Entity,
          groups := if u.Entity = "" then s.groups
                    else zaddG s.groups u.Entity u.ID score }

/-- `Leaderboard.IncrementScore`: validates (the zero test is on the raw
increment, before truncation), truncates the increment under integer
precision, then in one pipeline `ZINCRBY`s the global set, unconditionally
`HSET`s the directory, and `ZINCRBY`s the entity set when an entity is
given. -/
def IncrementScore (cfg : Config) (s : LB) (userID entity : String)
    (scoreIncrement : ℚ) : Except Err LB :=
  if userID = "" ∨ scoreIncrement = 0 then
    .error (.invalidInput "invalid user ID or score increment")
  else
    let inc := roundScore cfg scoreIncrement
    .ok { global := zincrby s.global inc userID,
          dir := hset s.dir userID entity,
          groups := if entity = "" then s.groups
                    else zincrbyG s.groups entity userID inc }

/-- `Leaderboard.RemoveUser`: reads the directory (tolerating `redis.Nil`,
which leaves `entity = ""`), then in one pipeline `ZREM`s the global set,
`HDEL`s the directory and, when an entity was recorded, `ZREM`s that
entity's set. -/
def RemoveUser (s : LB) (userID : String) : Except Err LB :=
  if userID = "" then
    .error (.invalidInput "invalid user ID")
  else
    let entity := (hget s.dir userID).getD ""
    .ok { global := zrem s.global userID,
          dir := hdel s.dir userID,
          groups := if entity = "" then s.groups
                    else zremG s.groups entity userID }

/-- `Leaderboard.UpdateEntityByUserID`: validates, requires the user to be
present in the global set (`ZSCORE` miss is `user not found`), reads the old
entity from the directory (Nil tolerated as `""`), applies the precision
policy to the score read back, then in one pipeline `HSET`s the directory,
`ZADD`s the new entity's set and, when a different non-empty old entity
existed, `ZREM`s the old entity's set. -/
def UpdateEntityByUserID (cfg : Config) (s : LB) (userID newEntity : String) :
    Except Err LB :=
  if userID = "" then
    .error (.invalidInput "invalid user ID")
  else if newEntity = "" then
    .error (.invalidInput "invalid new entity")
  else
    match zscore s.global userID with
    | none => .error (.notFound ("user " ++ userID ++ " not found"))
    | some sc =>
      let oldEntity := (hget s.dir userID).getD ""
      let score := roundScore cfg sc
      .ok { global := s.global,
            dir := hset s.dir userID newEntity,
            groups :=
              let gs1 := zaddG s.groups newEntity userID score
              if oldEntity ≠ "" ∧ oldEntity ≠ newEntity then
                zremG gs1 oldEntity userID
              else gs1 }

/-- `Leaderboard.GetUserEntity`: `HGET`, with `redis.Nil` reported as `""`. -/
def GetUserEntity (s : LB) (userID : String) : String :=
  (hget s.dir userID).getD ""

/-- The descending presentation order of a Redis sorted set, as `ZREVRANGE`
and `ZREVRANK` expose it: higher score first; among equal scores, the
lexicographically larger member first.  `revOrd a b` holds when `a` is
presented no later than `b`. -/
def revOrd (a b : String × ℚ) : Bool :=
  decide (b.2 < a.2 ∨ (a.2 = b.2 ∧ b.1 ≤ a.1))

/-- Insert into a list that is already in descending presentation order. -/
def insertRev (a : String × ℚ) : List (String × ℚ) → List (String × ℚ)
  | [] => [a]
  | b :: l => if revOrd a b then a :: b :: l else b :: insertRev a l

/-- The descending presentation order of the whole sorted set. -/
def sortRev : List (String × ℚ) → List (String × ℚ)
  | [] => []
  | a :: l => insertRev a (sortRev l)

/-- `ZREVRANGE key 0 stop WITHSCORES`: the prefix of the descending order up
to index `stop`, a negative `stop` counting from the end (Redis semantics;
the code calls this with `stop = K-1`, and `K-1 = -1` would mean the whole
set, though `New` makes `K ≥ 1`). -/
def zrevrange (z : Zset) (stop : Int) : List (String × ℚ) :=
  if stop < 0 then
    if ((sortRev z).length : Int) + stop < 0 then []
    else (sortRev z).take ((((sortRev z).length : Int) + stop).toNat + 1)
  else (sortRev z).take (stop.toNat + 1)

/-- Position of the first pair carrying member `m`. -/
def idxOf? (m : String) : List (String × ℚ) → Option Nat
  | [] => none
  | p :: rest => if p.1 = m then some 0 else (idxOf? m rest).map (· + 1)

/-- `ZREVRANK`: 0-based rank in descending order, `none` when absent. -/
def zrevrank (z : Zset) (m : String) : Option Nat :=
  idxOf? m (sortRev z)

/-- `Leaderboard.GetTopKGlobal`: `ZREVRANGE` on the global set, an error when
it comes back empty, otherwise each member annotated with its directory
entity (`redis.Nil` read as `""`). -/
def GetTopKGlobal (cfg : Config) (s : LB) : Except Err (List User) :=
  let members := zrevrange s.global ((cfg.K : Int) - 1)
  if members.length = 0 then
    .error (.emptyScope "no users in global leaderboard")
  else
    .ok (members.map (fun p =>
      { ID := p.1, Entity := (hget s.dir p.1).getD "", Score := p.2 }))

/-- `Leaderboard.GetTopKEntity`: `ZREVRANGE` on one entity's set (a missing
key reads as empty), an error when empty, otherwise each member annotated
with the requested entity. -/
def GetTopKEntity (cfg : Config) (s : LB) (entity : String) :
    Except Err (List User) :=
  let members := zrevrange (getG s.groups entity) ((cfg.K : Int) - 1)
  if members.length = 0 then
    .error (.emptyScope ("no users in entity " ++ entity))
  else
    .ok (members.map (fun p => { ID := p.1, Entity := entity, Score := p.2 }))

/-- `Leaderboard.GetUserLeaderboardData`: assembles the full profile.
`redis.Nil` outcomes are degraded (`rank -1`, `score 0`, `entity ""`) rather
than reported; the entity-scope block runs only for a non-empty directory
entity.  The Go function's error returns all require a Redis backend
failure, which the embedding does not model, so the result type is the plain
record. -/
def GetUserLeaderboardData (cfg : Config) (s : LB) (userID : String) :
    LeaderboardData :=
  let globalRank : Int :=
    match zrevrank s.global userID with
    | some r => (r : Int)
    | none => -1
  let entity := (hget s.dir userID).getD ""
  let score := (zscore s.global userID).getD 0
  let topKGlobal := (zrevrange s.global ((cfg.K : Int) - 1)).map
    (fun p => { ID := p.1, Entity := (hget s.dir p.1).getD "", Score := p.2 : User })
  if entity = "" then
    { UserID := userID, Score := score, Entity := entity,
      GlobalRank := globalRank, EntityRank := -1,
      TopKGlobal := topKGlobal, TopKEntity := [] }
  else
    let ez := getG s.groups entity
    let entityRank : Int :=
      match zrevrank ez userID with
      | some r => (r : Int)
      | none => -1
    let topKEntity := (zrevrange ez ((cfg.K : Int) - 1)).map
      (fun p => { ID := p.1, Entity := entity, Score := p.2 : User })
    { UserID := userID, Score := score, Entity := entity,
      GlobalRank := globalRank, EntityRank := entityRank,
      TopKGlobal := topKGlobal, TopKEntity := topKEntity }

/-- `true` on `Except.ok`, mirroring a `nil` Go error. -/
def exceptOk {α : Type} : Except Err α → Bool
  | .ok _ => true
  | .error _ => false

/-- One mutation of the coordinator API. -/
inductive Op where
  | add (u : User)
  | incr (userID entity : String) (d : ℚ)
  | update (userID newEntity : String)
  | remove (userID : String)
deriving DecidableEq

/-- Dispatch one mutation. -/
def applyOp (cfg : Config) (s : LB) : Op → Except Err LB
  | .add u => AddUser cfg s u
  | .incr id e d => IncrementScore cfg s id e d
  | .update id e => UpdateEntityByUserID cfg s id e
  | .remove id => RemoveUser s id

/-- Run a sequence of mutations from `s`; `some states` returns the state
after each operation when every operation completes successfully. -/
def runAll (cfg : Config) (s : LB) : List Op → Option (List LB)
  | [] => some []
  | op :: rest =>
      match applyOp cfg s op with
      | .ok s' => (runAll cfg s' rest).map (s' :: ·)
      | .error _ => none

/-- A mutation is group-consistent in state `s` when its group argument does
not silently contradict the directory: an `add` must repeat the identity's
current non-empty directory group, an `incr` must repeat the identity's
current directory entry exactly; `update` and `remove` are unrestricted. -/
def safeOp (s : LB) : Op → Bool
  | .add u =>
      match hget s.dir u.ID with
      | some g => g = "" || g = u.Entity
      | none => true
  | .incr id e _ =>
      match hget s.dir id with
      | some g => g = e
      | none => true
  | .update _ _ => true
  | .remove _ => true

/-- Every mutation of the sequence is group-consistent in the state it runs
in (failed operations end the run, so nothing after them is constrained). -/
def safeSeq (cfg : Config) (s : LB) : List Op → Bool
  | [] => true
  | op :: rest =>
      safeOp s op &&
      (match applyOp cfg s op with
       | .ok s' => safeSeq cfg s' rest
       | .error _ => true)

/-- The spec's cross-structure consistency property: every identity whose
directory entry is a non-empty group `g` has the same score in the global
set and in group `g`'s set, and appears in no other group's set. -/
def Consistent (s : LB) : Prop :=
  ∀ id g, hget s.dir id = some g → g ≠ "" →
    zscore (getG s.groups g) id = zscore s.global id ∧
    ∀ g', g' ≠ g → zscore (getG s.groups g') id = none

/-- Every identity in the global set has a directory entry. -/
def GlobalSubDir (s : LB) : Prop :=
  ∀ id, zscore s.global id ≠ none → hget s.dir id ≠ none

/-- Membership in a group set is owned by the directory: an identity found
in group `g`'s set has directory entry exactly `g`, and `g` is non-empty. -/
def GroupsOwned (s : LB) : Prop :=
  ∀ g id, zscore (getG s.groups g) id ≠ none → hget s.dir id = some g ∧ g ≠ ""

/-- The score recorded for an identity in its directory group's set equals
its global score (as options: both absent also counts as agreement). -/
def ScoresAgree (s : LB) : Prop :=
  ∀ g id, hget s.dir id = some g → g ≠ "" →
    zscore (getG s.groups g) id = zscore s.global id

/-- Under integer precision every global score is integral. -/
def IntScores (cfg : Config) (s : LB) : Prop :=
  cfg.FloatScores = false → ∀ id q, zscore s.global id = some q → IsInt q

/-- The inductive invariant maintained by group-consistent runs. -/
def LBInv (cfg : Config) (s : LB) : Prop :=
  GlobalSubDir s ∧ GroupsOwned s ∧ ScoresAgree s ∧ IntScores cfg s

/-- The default configuration of `New` (integer scores, `K = 10`). -/
def cfgInt : Config := { FloatScores := false, K := 10 }

/-- A configuration with `FloatScores` enabled and the default `K = 10`. -/
def cfgFloat : Config := { FloatScores := true, K := 10 }

/-- A configuration with `K = 2`, as in the repository's top-k tests. -/
def cfgK2 : Config := { FloatScores := true, K := 2 }

theorem lookupA_upsertA {α : Type} (l : List (String × α)) (m n : String) (v : α) :
    lookupA (upsertA l m v) n = if n = m then some v else lookupA l n := by
  induction l with
  | nil =>
    simp only [upsertA, lookupA]
    by_cases hn : n = m
    · simp [hn]
    · have h1 : ¬ m = n := fun h => hn h.symm
      simp [hn, h1]
  | cons p rest ih =>
    obtain ⟨k, w⟩ := p
    simp only [upsertA]
    by_cases hk : k = m
    · simp only [if_pos hk, lookupA]
      by_cases hn : n = m
      · simp [hn]
      · have h1 : ¬ m = n := fun h => hn h.symm
        have h2 : ¬ k = n := fun h => h1 (hk ▸ h)
        simp [hn, h1, h2]
    · simp only [if_neg hk, lookupA]
      by_cases hkn : k = n
      · have h1 : ¬ n = m := fun h => hk (hkn.trans h)
        simp [hkn, h1]
      · simp [hkn, ih]

theorem lookupA_removeA {α : Type} (l : List (String × α)) (m n : String) :
    lookupA (removeA l m) n = if n = m then none else lookupA l n := by
  induction l with
  | nil =>
    simp only [removeA, lookupA]
    split <;> rfl
  | cons p rest ih =>
    obtain ⟨k, w⟩ := p
    simp only [removeA]
    by_cases hk : k = m
    · rw [if_pos hk, ih]
      by_cases hn : n = m
      · simp [hn]
      · have h2 : ¬ k = n := fun h => hn (h ▸ hk)
        simp [hn, lookupA, h2]
    · simp only [if_neg hk, lookupA]
      by_cases hkn : k = n
      · have h1 : ¬ n = m := fun h => hk (hkn.trans h)
        simp [hkn, h1]
      · simp [hkn, ih]

theorem lookupA_adjustA {α : Type} (l : List (String × α)) (m n : String)
    (f : α → α) :
    lookupA (adjustA l m f) n =
      if n = m then (lookupA l m).map f else lookupA l n := by
  induction l with
  | nil =>
    simp only [adjustA, lookupA]
    split <;> rfl
  | cons p rest ih =>
    obtain ⟨k, w⟩ := p
    simp only [adjustA]
    by_cases hk : k = m
    · simp only [if_pos hk, lookupA]
      by_cases hn : n = m
      · have h2 : k = n := hk.trans hn.symm
        simp [hn, hk, h2]
      · have h2 : ¬ k = n := fun h => hn (h.symm.trans hk)
        simp [hn, h2, ih]
    · simp only [if_neg hk, lookupA]
      by_cases hkn : k = n
      · have h1 : ¬ n = m := fun h => hk (hkn.trans h)
        simp [hkn, h1]
      · simp [hkn, ih]

theorem removeA_idem {α : Type} (l : List (String × α)) (m : String) :
    removeA (removeA l m) m = removeA l m := by
  induction l with
  | nil => rfl
  | cons p rest ih =>
    obtain ⟨k, w⟩ := p
    simp only [removeA]
    by_cases hk : k = m
    · simp [hk, ih]
    · simp [removeA, hk, ih]

theorem zscore_zadd (z : Zset) (m n : String) (s : ℚ) :
    zscore (zadd z m s) n = if n = m then some s else zscore z n :=
  lookupA_upsertA z m n s

theorem zscore_zincrby (z : Zset) (d : ℚ) (m n : String) :
    zscore (zincrby z d m) n =
      if n = m then some ((zscore z m).getD 0 + d) else zscore z n :=
  lookupA_upsertA z m n _

theorem zscore_zrem (z : Zset) (m n : String) :
    zscore (zrem z m) n = if n = m then none else zscore z n :=
  lookupA_removeA z m n

theorem hget_hset (h : Hash) (m v n : String) :
    hget (hset h m v) n = if n = m then some v else hget h n :=
  lookupA_upsertA h m n v

theorem hget_hdel (h : Hash) (m n : String) :
    hget (hdel h m) n = if n = m then none else hget h n :=
  lookupA_removeA h m n

theorem getG_setG (gs : Groups) (g : String) (z : Zset) (g' : String) :
    getG (setG gs g z) g' = if g' = g then z else getG gs g' := by
  unfold getG setG
  rw [lookupA_upsertA]
  split <;> rfl

theorem getG_zremG (gs : Groups) (g m g' : String) :
    getG (zremG gs g m) g' =
      if g' = g then zrem (getG gs g) m else getG gs g' := by
  unfold getG zremG
  rw [lookupA_adjustA]
  split
  · cases lookupA gs g <;> rfl
  · rfl

theorem zscore_getG_zaddG (gs : Groups) (g m : String) (s : ℚ) (g' n : String) :
    zscore (getG (zaddG gs g m s) g') n =
      if g' = g then (if n = m then some s else zscore (getG gs g) n)
      else zscore (getG gs g') n := by
  unfold zaddG
  rw [getG_setG]
  split
  · rw [zscore_zadd]
  · rfl

theorem zscore_getG_zincrbyG (gs : Groups) (g m : String) (d : ℚ) (g' n : String) :
    zscore (getG (zincrbyG gs g m d) g') n =
      if g' = g then
        (if n = m then some ((zscore (getG gs g) m).getD 0 + d)
         else zscore (getG gs g) n)
      else zscore (getG gs g') n := by
  unfold zincrbyG
  rw [getG_setG]
  split
  · rw [zscore_zincrby]
  · rfl

theorem zscore_getG_zremG (gs : Groups) (g m g' n : String) :
    zscore (getG (zremG gs g m) g') n =
      if g' = g then (if n = m then none else zscore (getG gs g) n)
      else zscore (getG gs g') n := by
  rw [getG_zremG]
  split
  · rw [zscore_zrem]
  · rfl

theorem truncQ_isInt (q : ℚ) : IsInt (truncQ q) := by
  unfold truncQ
  split
  · exact ⟨⌈q⌉, rfl⟩
  · exact ⟨⌊q⌋, rfl⟩

theorem truncQ_intCast (n : ℤ) : truncQ (n : ℚ) = (n : ℚ) := by
  unfold truncQ
  split <;> simp

theorem truncQ_of_isInt {q : ℚ} (h : IsInt q) : truncQ q = q := by
  obtain ⟨n, rfl⟩ := h
  exact truncQ_intCast n

theorem truncQ_eq_zero {q : ℚ} (h : |q| < 1) : truncQ q = 0 := by
  rw [abs_lt] at h
  unfold truncQ
  split
  · have : ⌈q⌉ = 0 := by
      rw [Int.ceil_eq_zero_iff]
      constructor
      · exact h.1
      · linarith
    simp [this]
  · have : ⌊q⌋ = 0 := by
      rw [Int.floor_eq_zero_iff]
      constructor
      · linarith
      · exact h.2
    simp [this]

theorem roundScore_isInt (cfg : Config) (q : ℚ)
    (h : cfg.FloatScores = false) : IsInt (roundScore cfg q) := by
  simp [roundScore, h, truncQ_isInt]

theorem roundScore_eq_self (cfg : Config) {q : ℚ}
    (h : cfg.FloatScores = true ∨ IsInt q) : roundScore cfg q = q := by
  unfold roundScore
  rcases h with h | h
  · simp [h]
  · split
    · rfl
    · exact truncQ_of_isInt h

theorem isInt_add {a b : ℚ} (ha : IsInt a) (hb : IsInt b) : IsInt (a + b) := by
  obtain ⟨n, rfl⟩ := ha
  obtain ⟨m, rfl⟩ := hb
  exact ⟨n + m, by push_cast; ring⟩

theorem isInt_zero : IsInt (0 : ℚ) := ⟨0, by simp⟩

theorem revOrd_total (a b : String × ℚ) (h : revOrd a b = false) :
    revOrd b a = true := by
  simp only [revOrd, decide_eq_false_iff_not, decide_eq_true_eq] at *
  push_neg at h
  obtain ⟨h1, h2⟩ := h
  rcases lt_or_eq_of_le h1 with hlt | heq
  · exact Or.inl hlt
  · exact Or.inr ⟨heq.symm, le_of_lt (h2 heq)⟩

theorem revOrd_trans {a b c : String × ℚ} (h1 : revOrd a b = true)
    (h2 : revOrd b c = true) : revOrd a c = true := by
  simp only [revOrd, decide_eq_true_eq] at *
  rcases h1 with h1 | ⟨e1, l1⟩ <;> rcases h2 with h2 | ⟨e2, l2⟩
  · exact Or.inl (h2.trans h1)
  · exact Or.inl (by rw [← e2]; exact h1)
  · exact Or.inl (by rw [e1]; exact h2)
  · exact Or.inr ⟨e1.trans e2, l2.trans l1⟩

theorem length_insertRev (a : String × ℚ) (l : List (String × ℚ)) :
    (insertRev a l).length = l.length + 1 := by
  induction l with
  | nil => rfl
  | cons b l ih =>
    simp only [insertRev]
    split
    · simp
    · simp [ih]

theorem mem_insertRev (a x : String × ℚ) (l : List (String × ℚ)) :
    x ∈ insertRev a l ↔ x = a ∨ x ∈ l := by
  induction l with
  | nil => simp [insertRev]
  | cons b l ih =>
    simp only [insertRev]
    split
    · simp [List.mem_cons]
    · simp only [List.mem_cons, ih]
      tauto

theorem sorted_insertRev (a : String × ℚ) (l : List (String × ℚ))
    (h : l.Pairwise (fun x y => revOrd x y = true)) :
    (insertRev a l).Pairwise (fun x y => revOrd x y = true) := by
  induction l with
  | nil => simp [insertRev]
  | cons b l ih =>
    rcases List.pairwise_cons.mp h with ⟨hb, hl⟩
    simp only [insertRev]
    by_cases hab : revOrd a b = true
    · rw [if_pos hab]
      refine List.pairwise_cons.mpr ⟨?_, h⟩
      intro x hx
      rcases List.mem_cons.mp hx with rfl | hx
      · exact hab
      · exact revOrd_trans hab (hb x hx)
    · rw [if_neg hab]
      refine List.pairwise_cons.mpr ⟨?_, ih hl⟩
      intro x hx
      rcases (mem_insertRev a x l).mp hx with rfl | hx
      · exact revOrd_total x b (by simpa using hab)
      · exact hb x hx

theorem length_sortRev (l : List (String × ℚ)) :
    (sortRev l).length = l.length := by
  induction l with
  | nil => rfl
  | cons a l ih => simp [sortRev, length_insertRev, ih]

theorem mem_sortRev (x : String × ℚ) (l : List (String × ℚ)) :
    x ∈ sortRev l ↔ x ∈ l := by
  induction l with
  | nil => simp [sortRev]
  | cons a l ih => simp [sortRev, mem_insertRev, ih]

theorem sorted_sortRev (l : List (String × ℚ)) :
    (sortRev l).Pairwise (fun x y => revOrd x y = true) := by
  induction l with
  | nil => simp [sortRev]
  | cons a l ih => exact sorted_insertRev a _ ih

theorem scoresDesc_sortRev (l : List (String × ℚ)) :
    (sortRev l).Pairwise (fun x y => y.2 ≤ x.2) := by
  refine (sorted_sortRev l).imp ?_
  intro a b h
  simp only [revOrd, decide_eq_true_eq] at h
  rcases h with h | ⟨h, _⟩
  · exact le_of_lt h
  · exact le_of_eq h.symm

theorem lookupA_eq_none {α : Type} (l : List (String × α)) (m : String) :
    lookupA l m = none ↔ ∀ p ∈ l, p.1 ≠ m := by
  induction l with
  | nil => simp [lookupA]
  | cons p rest ih =>
    obtain ⟨k, w⟩ := p
    simp only [lookupA, List.mem_cons]
    by_cases hk : k = m
    · simp [hk]
    · simp only [if_neg hk, ih]
      constructor
      · rintro h q (rfl | hq)
        · exact hk
        · exact h q hq
      · intro h q hq
        exact h q (Or.inr hq)

theorem idxOf?_eq_none {m : String} {l : List (String × ℚ)}
    (h : ∀ p ∈ l, p.1 ≠ m) : idxOf? m l = none := by
  induction l with
  | nil => rfl
  | cons p rest ih =>
    simp only [idxOf?]
    rw [if_neg (h p (List.mem_cons_self p rest)),
        ih (fun q hq => h q (List.mem_cons_of_mem p hq))]
    rfl

theorem zrevrank_eq_none {z : Zset} {m : String} (h : zscore z m = none) :
    zrevrank z m = none := by
  apply idxOf?_eq_none
  intro p hp
  exact (lookupA_eq_none z m).mp h p ((mem_sortRev p z).mp hp)

theorem zrevrange_of_pos (z : Zset) {k : ℕ} (hk : 1 ≤ k) :
    zrevrange z ((k : Int) - 1) = (sortRev z).take k := by
  unfold zrevrange
  rw [if_neg (by omega : ¬ ((k : Int) - 1 < 0))]
  congr 1
  omega

theorem length_zrevrange (z : Zset) {k : ℕ} (hk : 1 ≤ k) :
    (zrevrange z ((k : Int) - 1)).length = min k z.length := by
  rw [zrevrange_of_pos z hk, List.length_take, length_sortRev]

theorem zrevrange_eq_nil_iff (z : Zset) (k : ℕ) :
    zrevrange z ((k : Int) - 1) = [] ↔ z = [] := by
  rcases Nat.eq_zero_or_pos k with hk | hk
  · subst hk
    unfold zrevrange
    simp only [Nat.cast_zero, zero_sub]
    rw [if_pos (by norm_num : (-1 : ℤ) < 0)]
    by_cases hz : z = []
    · subst hz
      simp [sortRev]
    · have hn : 1 ≤ z.length := by
        have := List.length_pos.mpr hz
        omega
      have hn' : ¬ (((sortRev z).length : ℤ) + -1 < 0) := by
        rw [length_sortRev]
        omega
      rw [if_neg hn']
      constructor
      · intro h
        have h1 := congrArg List.length h
        rw [List.length_take, length_sortRev] at h1
        simp only [List.length_nil] at h1
        omega
      · intro h
        exact absurd h hz
  · rw [zrevrange_of_pos z hk]
    constructor
    · intro h
      have h1 := congrArg List.length h
      rw [List.length_take, length_sortRev] at h1
      simp only [List.length_nil] at h1
      have h2 : z.length = 0 := by omega
      exact List.length_eq_zero.mp h2
    · rintro rfl
      simp [sortRev]

theorem scoresDesc_zrevrange (z : Zset) (stop : Int) :
    (zrevrange z stop).Pairwise (fun x y => y.2 ≤ x.2) := by
  unfold zrevrange
  have hs := scoresDesc_sortRev z
  split
  · split
    · simp
    · exact List.Pairwise.sublist (List.take_sublist _ _) hs
  · exact List.Pairwise.sublist (List.take_sublist _ _) hs

theorem zrem_zrem (z : Zset) (m : String) : zrem (zrem z m) m = zrem z m :=
  removeA_idem z m

theorem hdel_hdel (h : Hash) (m : String) : hdel (hdel h m) m = hdel h m :=
  removeA_idem h m

/-- Claim C2: after every successful `IncrementScore(id, group, delta)` the
directory maps `id` to `group` — the `HSet` is unconditional, also when
`group` is empty or differs from the identity's previous group — and
`GetUserEntity(id)` then returns `group`. -/
theorem C2_directory_overwrite (cfg : Config) (s : LB) (userID entity : String)
    (d : ℚ) (s' : LB) (h : IncrementScore cfg s userID entity d = .ok s') :
    hget s'.dir userID = some entity ∧ GetUserEntity s' userID = entity := by
  unfold IncrementScore at h
  split at h
  · exact absurd h (by simp)
  · simp only [Except.ok.injEq] at h
    subst h
    constructor
    · dsimp only
      rw [hget_hset, if_pos rfl]
    · dsimp only [GetUserEntity]
      rw [hget_hset, if_pos rfl]
      rfl

theorem C2_directory_overwrite_witness :
    hget (LB.mk [("u", (0 : ℚ) + 5)] [("u", "US")]
      [("US", [("u", (0 : ℚ) + 5)])]).dir "u" = some "US" ∧
    GetUserEntity (LB.mk [("u", (0 : ℚ) + 5)] [("u", "US")]
      [("US", [("u", (0 : ℚ) + 5)])]) "u" = "US" :=
  C2_directory_overwrite cfgFloat LB.empty "u" "US" 5 _ rfl

/-- Claim C4, counterexample: `AddUser` with score exactly 0 is accepted,
not rejected — the Go guard is `user.Score < 0`, which 0 passes. -/
theorem C4_counterexample :
    exceptOk (AddUser cfgFloat LB.empty { ID := "u", Entity := "US", Score := 0 }) =
      true := by decide

/-- Claim C4 (amended): `AddUser` rejects with the `InvalidInput` error
exactly the calls whose identifier is empty or whose score is strictly
negative (returning before any state is written); a score of exactly 0 is
accepted. -/
theorem C4_reject_amended (cfg : Config) (s : LB) (u : User) :
    AddUser cfg s u = .error (.invalidInput "invalid user ID or score") ↔
      (u.ID = "" ∨ u.Score < 0) := by
  unfold AddUser
  split
  · rename_i hcond
    simp [hcond]
  · rename_i hcond
    simp [hcond]

/-- Claim C5: `GetTopKGlobal` fails exactly when the global store is empty,
and `GetTopKEntity g` fails exactly when group `g`'s store is empty or the
group key does not exist (a missing key reads as the empty set). -/
theorem C5_empty_scope (cfg : Config) (s : LB) (g : String) :
    (exceptOk (GetTopKGlobal cfg s) = false ↔ s.global = []) ∧
    (exceptOk (GetTopKEntity cfg s g) = false ↔ getG s.groups g = []) := by
  constructor
  · simp only [GetTopKGlobal]
    split
    · rename_i hlen
      simp only [exceptOk]
      constructor
      · intro _
        exact (zrevrange_eq_nil_iff s.global cfg.K).mp (List.length_eq_zero.mp hlen)
      · intro _
        trivial
    · rename_i hlen
      simp only [exceptOk]
      constructor
      · intro hfalse
        simp at hfalse
      · intro hz
        exfalso
        apply hlen
        rw [(zrevrange_eq_nil_iff s.global cfg.K).mpr hz]
        rfl
  · simp only [GetTopKEntity]
    split
    · rename_i hlen
      simp only [exceptOk]
      constructor
      · intro _
        exact (zrevrange_eq_nil_iff (getG s.groups g) cfg.K).mp
          (List.length_eq_zero.mp hlen)
      · intro _
        trivial
    · rename_i hlen
      simp only [exceptOk]
      constructor
      · intro hfalse
        simp at hfalse
      · intro hz
        exfalso
        apply hlen
        rw [(zrevrange_eq_nil_iff (getG s.groups g) cfg.K).mpr hz]
        rfl

/-- Claim C6: for an identity absent from both the global store and the
directory, the full-profile read degrades instead of failing: score 0,
global rank -1, entity `""`, entity rank -1.  (In the embedding the
assembler is total; its Go error paths all require a backend failure.) -/
theorem C6_unranked_profile (cfg : Config) (s : LB) (userID : String)
    (hg : zscore s.global userID = none) (hd : hget s.dir userID = none) :
    (GetUserLeaderboardData cfg s userID).Score = 0 ∧
    (GetUserLeaderboardData cfg s userID).GlobalRank = -1 ∧
    (GetUserLeaderboardData cfg s userID).Entity = "" ∧
    (GetUserLeaderboardData cfg s userID).EntityRank = -1 := by
  have hrank := zrevrank_eq_none hg
  simp only [GetUserLeaderboardData, hg, hd, hrank, Option.getD_none]
  simp

theorem C6_unranked_profile_witness :
    (GetUserLeaderboardData cfgInt LB.empty "ghost").Score = 0 ∧
    (GetUserLeaderboardData cfgInt LB.empty "ghost").GlobalRank = -1 ∧
    (GetUserLeaderboardData cfgInt LB.empty "ghost").Entity = "" ∧
    (GetUserLeaderboardData cfgInt LB.empty "ghost").EntityRank = -1 :=
  C6_unranked_profile cfgInt LB.empty "ghost" rfl rfl

/-- Claim C7: with a non-empty identifier, `RemoveUser` always succeeds, and
a second removal in a row also succeeds and leaves the state unchanged —
removing an identity that is absent from all structures is a silent no-op. -/
theorem C7_remove_idempotent (s : LB) (userID : String) (hid : userID ≠ "") :
    ∃ s₁, RemoveUser s userID = .ok s₁ ∧
      ∃ s₂, RemoveUser s₁ userID = .ok s₂ ∧ s₂ = s₁ := by
  have hrm : ∀ t : LB, RemoveUser t userID = .ok
      { global := zrem t.global userID, dir := hdel t.dir userID,
        groups := if (hget t.dir userID).getD "" = "" then t.groups
                  else zremG t.groups ((hget t.dir userID).getD "") userID } := by
    intro t
    unfold RemoveUser
    rw [if_neg hid]
  refine ⟨_, hrm s, _, hrm _, ?_⟩
  dsimp only
  rw [hget_hdel, if_pos rfl]
  simp only [Option.getD_none, if_pos rfl, LB.mk.injEq]
  exact ⟨zrem_zrem _ _, hdel_hdel _ _, rfl⟩

theorem C7_remove_idempotent_witness :
    ∃ s₁, RemoveUser (LB.mk [("u", 5)] [("u", "US")] [("US", [("u", 5)])]) "u" =
        .ok s₁ ∧
      ∃ s₂, RemoveUser s₁ "u" = .ok s₂ ∧ s₂ = s₁ :=
  C7_remove_idempotent (LB.mk [("u", 5)] [("u", "US")] [("US", [("u", 5)])]) "u"
    (by decide)

/-- Claim C9: a successful `AddUser(id, E, s)` with `E` different from the
identity's current non-empty directory group `G` leaves the identity's old
entry in group `G`'s store untouched (`AddUser` never removes entries from
group stores) while the directory now maps the identity to `E`. -/
theorem C9_adduser_frame (cfg : Config) (s : LB) (u : User) (G : String)
    (hdir : hget s.dir u.ID = some G) (hG : G ≠ "") (hne : u.Entity ≠ G)
    (hid : u.ID ≠ "") (hsc : ¬ u.Score < 0) :
    ∃ s', AddUser cfg s u = .ok s' ∧
      zscore (getG s'.groups G) u.ID = zscore (getG s.groups G) u.ID ∧
      hget s'.dir u.ID = some u.Entity := by
  have hcond : ¬ (u.ID = "" ∨ u.Score < 0) := by
    rintro (hh | hh)
    · exact hid hh
    · exact hsc hh
  refine ⟨{ global := zadd s.global u.ID (roundScore cfg u.Score),
            dir := hset s.dir u.ID u.Entity,
            groups := if u.Entity = "" then s.groups
                      else zaddG s.groups u.Entity u.ID (roundScore cfg u.Score) },
          ?_, ?_, ?_⟩
  · unfold AddUser
    rw [if_neg hcond]
  · dsimp only
    by_cases hE : u.Entity = ""
    · rw [if_pos hE]
    · rw [if_neg hE, zscore_getG_zaddG,
        if_neg (fun hh => hne hh.symm : ¬ G = u.Entity)]
  · dsimp only
    rw [hget_hset, if_pos rfl]

theorem C9_adduser_frame_witness :
    ∃ s', AddUser cfgFloat (LB.mk [("u", 1)] [("u", "US")] [("US", [("u", 1)])])
        { ID := "u", Entity := "UK", Score := 2 } = .ok s' ∧
      zscore (getG s'.groups "US") "u" =
        zscore (getG (LB.mk [("u", 1)] [("u", "US")]
          [("US", [("u", 1)])]).groups "US") "u" ∧
      hget s'.dir "u" = some "UK" :=
  C9_adduser_frame cfgFloat (LB.mk [("u", 1)] [("u", "US")] [("US", [("u", 1)])])
    { ID := "u", Entity := "UK", Score := 2 } "US"
    (by decide) (by decide) (by decide) (by decide) (by decide)

/-- Claim C10: with `FloatScores = false`, an increment `d` with
`0 < |d| < 1` passes validation (the zero test precedes truncation) and is
applied as exactly 0: the identity's global score is unchanged when present
and created at 0 when absent, likewise in the entity's store when an entity
is given; all other identities' scores are untouched. -/
theorem C10_fractional_increment (cfg : Config) (s : LB)
    (userID entity : String) (d : ℚ) (hid : userID ≠ "")
    (hf : cfg.FloatScores = false) (hd0 : d ≠ 0) (hd1 : |d| < 1) :
    ∃ s', IncrementScore cfg s userID entity d = .ok s' ∧
      zscore s'.global userID = some ((zscore s.global userID).getD 0) ∧
      (∀ id', id' ≠ userID → zscore s'.global id' = zscore s.global id') ∧
      (entity ≠ "" →
        zscore (getG s'.groups entity) userID =
          some ((zscore (getG s.groups entity) userID).getD 0)) := by
  have hround : roundScore cfg d = 0 := by
    rw [roundScore, hf]
    simp [truncQ_eq_zero hd1]
  have hcond : ¬ (userID = "" ∨ d = 0) := by
    rintro (hh | hh)
    · exact hid hh
    · exact hd0 hh
  refine ⟨{ global := zincrby s.global (roundScore cfg d) userID,
            dir := hset s.dir userID entity,
            groups := if entity = "" then s.groups
                      else zincrbyG s.groups entity userID (roundScore cfg d) },
          ?_, ?_, ?_, ?_⟩
  · unfold IncrementScore
    rw [if_neg hcond]
  · dsimp only
    rw [zscore_zincrby, if_pos rfl, hround, add_zero]
  · intro id' hid'
    dsimp only
    rw [zscore_zincrby, if_neg hid']
  · intro hE
    dsimp only
    rw [if_neg hE, zscore_getG_zincrbyG, if_pos rfl, if_pos rfl, hround, add_zero]

theorem C10_fractional_increment_witness :
    ∃ s', IncrementScore cfgInt LB.empty "u" "US" (Rat.mk' 1 2) = .ok s' ∧
      zscore s'.global "u" = some ((zscore LB.empty.global "u").getD 0) ∧
      (∀ id', id' ≠ "u" → zscore s'.global id' = zscore LB.empty.global id') ∧
      ("US" ≠ "" →
        zscore (getG s'.groups "US") "u" =
          some ((zscore (getG LB.empty.groups "US") "u").getD 0)) :=
  C10_fractional_increment cfgInt LB.empty "u" "US" (Rat.mk' 1 2) (by decide)
    rfl (by decide) (abs_lt.mpr ⟨lt_trans neg_one_lt_zero (by decide), by decide⟩)

/-- Claim C3: for an identity present in the global store with score `S`,
a successful `UpdateEntityByUserID` to a non-empty `G'` sets the directory
to `G'`, upserts the identity into group `G'`'s store at its current global
score `S`, and removes it from its previous group's store when that group
is non-empty and different from `G'`.  (`S` is re-inserted verbatim: under
integer precision the code re-truncates the score it read back, which is
the identity on the integral scores that configuration produces, hence the
precision hypothesis.) -/
theorem C3_group_move (cfg : Config) (s : LB) (X G' : String) (S : ℚ)
    (hX : X ≠ "") (hG' : G' ≠ "") (hS : zscore s.global X = some S)
    (hprec : cfg.FloatScores = true ∨ IsInt S) :
    ∃ s', UpdateEntityByUserID cfg s X G' = .ok s' ∧
      hget s'.dir X = some G' ∧
      zscore (getG s'.groups G') X = some S ∧
      ((hget s.dir X).getD "" ≠ "" → (hget s.dir X).getD "" ≠ G' →
        zscore (getG s'.groups ((hget s.dir X).getD "")) X = none) := by
  have hround : roundScore cfg S = S := roundScore_eq_self cfg hprec
  refine ⟨{ global := s.global,
            dir := hset s.dir X G',
            groups :=
              if (hget s.dir X).getD "" ≠ "" ∧ (hget s.dir X).getD "" ≠ G' then
                zremG (zaddG s.groups G' X S) ((hget s.dir X).getD "") X
              else zaddG s.groups G' X S },
          ?_, ?_, ?_, ?_⟩
  · unfold UpdateEntityByUserID
    rw [if_neg hX, if_neg hG', hS]
    dsimp only
    rw [hround]
  · dsimp only
    rw [hget_hset, if_pos rfl]
  · dsimp only
    by_cases hc : (hget s.dir X).getD "" ≠ "" ∧ (hget s.dir X).getD "" ≠ G'
    · rw [if_pos hc, zscore_getG_zremG,
        if_neg (fun hh => hc.2 hh.symm : ¬ G' = (hget s.dir X).getD ""),
        zscore_getG_zaddG, if_pos rfl, if_pos rfl]
    · rw [if_neg hc, zscore_getG_zaddG, if_pos rfl, if_pos rfl]
  · intro hold hne
    dsimp only
    rw [if_pos ⟨hold, hne⟩, zscore_getG_zremG, if_pos rfl, if_pos rfl]

theorem C3_group_move_witness :
    ∃ s', UpdateEntityByUserID cfgFloat
        (LB.mk [("u", 5)] [("u", "US")] [("US", [("u", 5)])]) "u" "UK" =
        .ok s' ∧
      hget s'.dir "u" = some "UK" ∧
      zscore (getG s'.groups "UK") "u" = some 5 ∧
      ((hget (LB.mk [("u", 5)] [("u", "US")]
          [("US", [("u", 5)])]).dir "u").getD "" ≠ "" →
       (hget (LB.mk [("u", 5)] [("u", "US")]
          [("US", [("u", 5)])]).dir "u").getD "" ≠ "UK" →
        zscore (getG s'.groups ((hget (LB.mk [("u", 5)] [("u", "US")]
          [("US", [("u", 5)])]).dir "u").getD "")) "u" = none) :=
  C3_group_move cfgFloat (LB.mk [("u", 5)] [("u", "US")] [("US", [("u", 5)])])
    "u" "UK" 5 (by decide) (by decide) (by decide) (Or.inl rfl)

/-- Claim C8: against any scope (the global store or one group's store)
holding at least one entry, and with the configured `K ≥ 1` that `New`
guarantees, the top-k query succeeds and returns exactly
`min(K, scope size)` entries — never more than `K` — in descending score
order. -/
theorem C8_topk_bound (cfg : Config) (s : LB) (g : String) (hk : 1 ≤ cfg.K)
    (hglob : s.global ≠ []) (hgrp : getG s.groups g ≠ []) :
    ∃ us ue, GetTopKGlobal cfg s = .ok us ∧ GetTopKEntity cfg s g = .ok ue ∧
      us.length = min cfg.K s.global.length ∧ us.length ≤ cfg.K ∧
      us.Pairwise (fun a b => b.Score ≤ a.Score) ∧
      ue.length = min cfg.K (getG s.groups g).length ∧ ue.length ≤ cfg.K ∧
      ue.Pairwise (fun a b => b.Score ≤ a.Score) := by
  have hlg : (zrevrange s.global ((cfg.K : Int) - 1)).length =
      min cfg.K s.global.length := length_zrevrange s.global hk
  have hle : (zrevrange (getG s.groups g) ((cfg.K : Int) - 1)).length =
      min cfg.K (getG s.groups g).length := length_zrevrange (getG s.groups g) hk
  have hgl0 : 1 ≤ s.global.length := by
    have := List.length_pos.mpr hglob
    omega
  have hge0 : 1 ≤ (getG s.groups g).length := by
    have := List.length_pos.mpr hgrp
    omega
  have hnz1 : ¬ (zrevrange s.global ((cfg.K : Int) - 1)).length = 0 := by
    rw [hlg]
    omega
  have hnz2 : ¬ (zrevrange (getG s.groups g) ((cfg.K : Int) - 1)).length = 0 := by
    rw [hle]
    omega
  refine ⟨(zrevrange s.global ((cfg.K : Int) - 1)).map
      (fun p => { ID := p.1, Entity := (hget s.dir p.1).getD "", Score := p.2 }),
    (zrevrange (getG s.groups g) ((cfg.K : Int) - 1)).map
      (fun p => { ID := p.1, Entity := g, Score := p.2 }),
    ?_, ?_, ?_, ?_, ?_, ?_, ?_, ?_⟩
  · simp only [GetTopKGlobal]
    rw [if_neg hnz1]
  · simp only [GetTopKEntity]
    rw [if_neg hnz2]
  · rw [List.length_map]
    exact hlg
  · rw [List.length_map, hlg]
    omega
  · exact List.pairwise_map.mpr (scoresDesc_zrevrange s.global ((cfg.K : Int) - 1))
  · rw [List.length_map]
    exact hle
  · rw [List.length_map, hle]
    omega
  · exact List.pairwise_map.mpr
      (scoresDesc_zrevrange (getG s.groups g) ((cfg.K : Int) - 1))

theorem C8_topk_bound_witness :
    ∃ us ue, GetTopKGlobal cfgK2
        (LB.mk [("a", 3), ("b", 1), ("c", 2)] [("a", "US")]
          [("US", [("x", 1), ("y", 2)])]) = .ok us ∧
      GetTopKEntity cfgK2
        (LB.mk [("a", 3), ("b", 1), ("c", 2)] [("a", "US")]
          [("US", [("x", 1), ("y", 2)])]) "US" = .ok ue ∧
      us.length = min cfgK2.K (LB.mk [("a", 3), ("b", 1), ("c", 2)] [("a", "US")]
          [("US", [("x", 1), ("y", 2)])]).global.length ∧
      us.length ≤ cfgK2.K ∧
      us.Pairwise (fun a b => b.Score ≤ a.Score) ∧
      ue.length = min cfgK2.K (getG (LB.mk [("a", 3), ("b", 1), ("c", 2)]
          [("a", "US")] [("US", [("x", 1), ("y", 2)])]).groups "US").length ∧
      ue.length ≤ cfgK2.K ∧
      ue.Pairwise (fun a b => b.Score ≤ a.Score) :=
  C8_topk_bound cfgK2
    (LB.mk [("a", 3), ("b", 1), ("c", 2)] [("a", "US")]
      [("US", [("x", 1), ("y", 2)])]) "US"
    (by decide) (by decide) (by decide)

theorem lbinv_empty (cfg : Config) : LBInv cfg LB.empty := by
  refine ⟨?_, ?_, ?_, ?_⟩
  · intro id hne
    exact absurd rfl hne
  · intro g id hne
    exact absurd rfl hne
  · intro g id hdir
    exact absurd hdir (by intro hc; exact Option.noConfusion hc)
  · intro hfl id q hq
    exact Option.noConfusion hq

theorem lbinv_add (cfg : Config) (s : LB) (u : User) (s' : LB)
    (hInv : LBInv cfg s)
    (hsafe : ∀ g, hget s.dir u.ID = some g → g ≠ "" → g = u.Entity)
    (h : AddUser cfg s u = .ok s') : LBInv cfg s' := by
  obtain ⟨h1, h2, h3, h4⟩ := hInv
  unfold AddUser at h
  split at h
  · exact absurd h (by simp)
  · simp only [Except.ok.injEq] at h
    subst h
    refine ⟨?_, ?_, ?_, ?_⟩
    · -- GlobalSubDir
      intro id hne
      dsimp only at hne ⊢
      rw [zscore_zadd] at hne
      rw [hget_hset]
      by_cases hidu : id = u.ID
      · rw [if_pos hidu]
        simp
      · rw [if_neg hidu] at hne ⊢
        exact h1 id hne
    · -- GroupsOwned
      intro g id hne
      dsimp only at hne ⊢
      rw [hget_hset]
      by_cases hE : u.Entity = ""
      · rw [if_pos hE] at hne
        have hown := h2 g id hne
        by_cases hidu : id = u.ID
        · exfalso
          rw [hidu] at hown
          exact hown.2 ((hsafe g hown.1 hown.2).trans hE)
        · rw [if_neg hidu]
          exact hown
      · rw [if_neg hE, zscore_getG_zaddG] at hne
        by_cases hg : g = u.Entity
        · rw [if_pos hg] at hne
          by_cases hidu : id = u.ID
          · rw [if_pos hidu]
            exact ⟨by rw [hg], by rw [hg]; exact hE⟩
          · rw [if_neg hidu] at hne
            rw [if_neg hidu]
            exact h2 g id (by rw [hg]; exact hne)
        · rw [if_neg hg] at hne
          have hown := h2 g id hne
          by_cases hidu : id = u.ID
          · exfalso
            rw [hidu] at hown
            exact hg (hsafe g hown.1 hown.2)
          · rw [if_neg hidu]
            exact hown
    · -- ScoresAgree
      intro g id hdir hgne
      dsimp only at hdir ⊢
      rw [hget_hset] at hdir
      by_cases hidu : id = u.ID
      · rw [if_pos hidu] at hdir
        injection hdir with hEg
        subst hidu
        have hE : ¬ u.Entity = "" := by
          rw [hEg]
          exact hgne
        rw [if_neg hE, zscore_getG_zaddG, if_pos hEg.symm, if_pos rfl,
          zscore_zadd, if_pos rfl]
      · rw [if_neg hidu] at hdir
        rw [zscore_zadd, if_neg hidu]
        by_cases hE : u.Entity = ""
        · rw [if_pos hE]
          exact h3 g id hdir hgne
        · rw [if_neg hE, zscore_getG_zaddG]
          by_cases hg : g = u.Entity
          · rw [if_pos hg, if_neg hidu, ← hg]
            exact h3 g id hdir hgne
          · rw [if_neg hg]
            exact h3 g id hdir hgne
    · -- IntScores
      intro hfl id q hq
      dsimp only at hq
      rw [zscore_zadd] at hq
      by_cases hidu : id = u.ID
      · rw [if_pos hidu] at hq
        injection hq with hq'
        rw [← hq']
        exact roundScore_isInt cfg u.Score hfl
      · rw [if_neg hidu] at hq
        exact h4 hfl id q hq

theorem lbinv_incr (cfg : Config) (s : LB) (userID entity : String) (d : ℚ)
    (s' : LB) (hInv : LBInv cfg s)
    (hsafe : ∀ g, hget s.dir userID = some g → g = entity)
    (h : IncrementScore cfg s userID entity d = .ok s') : LBInv cfg s' := by
  obtain ⟨h1, h2, h3, h4⟩ := hInv
  unfold IncrementScore at h
  split at h
  · exact absurd h (by simp)
  · simp only [Except.ok.injEq] at h
    subst h
    refine ⟨?_, ?_, ?_, ?_⟩
    · -- GlobalSubDir
      intro id hne
      dsimp only at hne ⊢
      rw [zscore_zincrby] at hne
      rw [hget_hset]
      by_cases hidu : id = userID
      · rw [if_pos hidu]
        simp
      · rw [if_neg hidu] at hne ⊢
        exact h1 id hne
    · -- GroupsOwned
      intro g id hne
      dsimp only at hne ⊢
      rw [hget_hset]
      by_cases hE : entity = ""
      · rw [if_pos hE] at hne
        have hown := h2 g id hne
        by_cases hidu : id = userID
        · exfalso
          rw [hidu] at hown
          exact hown.2 ((hsafe g hown.1).trans hE)
        · rw [if_neg hidu]
          exact hown
      · rw [if_neg hE, zscore_getG_zincrbyG] at hne
        by_cases hg : g = entity
        · rw [if_pos hg] at hne
          by_cases hidu : id = userID
          · rw [if_pos hidu]
            exact ⟨by rw [hg], by rw [hg]; exact hE⟩
          · rw [if_neg hidu] at hne
            rw [if_neg hidu]
            exact h2 g id (by rw [hg]; exact hne)
        · rw [if_neg hg] at hne
          have hown := h2 g id hne
          by_cases hidu : id = userID
          · exfalso
            rw [hidu] at hown
            exact hg (hsafe g hown.1)
          · rw [if_neg hidu]
            exact hown
    · -- ScoresAgree
      intro g id hdir hgne
      dsimp only at hdir ⊢
      rw [hget_hset] at hdir
      by_cases hidu : id = userID
      · rw [if_pos hidu] at hdir
        injection hdir with hEg
        subst hidu
        have hE : ¬ entity = "" := by
          rw [hEg]
          exact hgne
        rw [if_neg hE, zscore_getG_zincrbyG, if_pos hEg.symm, if_pos rfl,
          zscore_zincrby, if_pos rfl]
        rcases hdirold : hget s.dir id with _ | g0
        · have hgl : zscore s.global id = none := by
            by_contra hc
            exact (h1 id hc) hdirold
          have hgr : zscore (getG s.groups entity) id = none := by
            by_contra hc
            have hown := h2 entity id hc
            rw [hdirold] at hown
            exact Option.noConfusion hown.1
          rw [hgl, hgr]
        · have hg0 : g0 = entity := hsafe g0 hdirold
          have hagree := h3 g0 id hdirold (by rw [hg0]; exact hE)
          rw [hg0] at hagree
          rw [hagree]
      · rw [if_neg hidu] at hdir
        rw [zscore_zincrby, if_neg hidu]
        by_cases hE : entity = ""
        · rw [if_pos hE]
          exact h3 g id hdir hgne
        · rw [if_neg hE, zscore_getG_zincrbyG]
          by_cases hg : g = entity
          · rw [if_pos hg, if_neg hidu, ← hg]
            exact h3 g id hdir hgne
          · rw [if_neg hg]
            exact h3 g id hdir hgne
    · -- IntScores
      intro hfl id q hq
      dsimp only at hq
      rw [zscore_zincrby] at hq
      by_cases hidu : id = userID
      · rw [if_pos hidu] at hq
        injection hq with hq'
        rw [← hq']
        apply isInt_add
        · rcases hzold : zscore s.global userID with _ | q0
          · exact isInt_zero
          · simp only [Option.getD_some]
            exact h4 hfl userID q0 hzold
        · exact roundScore_isInt cfg d hfl
      · rw [if_neg hidu] at hq
        exact h4 hfl id q hq

theorem lbinv_update (cfg : Config) (s : LB) (userID newEntity : String)
    (s' : LB) (hInv : LBInv cfg s)
    (h : UpdateEntityByUserID cfg s userID newEntity = .ok s') : LBInv cfg s' := by
  obtain ⟨h1, h2, h3, h4⟩ := hInv
  unfold UpdateEntityByUserID at h
  split at h
  · exact absurd h (by simp)
  split at h
  · exact absurd h (by simp)
  rename_i huid hnew
  rcases hzs : zscore s.global userID with _ | sc
  · rw [hzs] at h
    exact absurd h (by simp)
  · rw [hzs] at h
    simp only [Except.ok.injEq] at h
    subst h
    have hsc : roundScore cfg sc = sc := by
      rcases hb : cfg.FloatScores with _ | _
      · exact roundScore_eq_self cfg (Or.inr (h4 hb userID sc hzs))
      · exact roundScore_eq_self cfg (Or.inl hb)
    rw [hsc]
    refine ⟨?_, ?_, ?_, ?_⟩
    · -- GlobalSubDir
      intro id hne
      dsimp only at hne ⊢
      rw [hget_hset]
      by_cases hidu : id = userID
      · rw [if_pos hidu]
        simp
      · rw [if_neg hidu]
        exact h1 id hne
    · -- GroupsOwned
      intro g id hne
      dsimp only at hne ⊢
      rw [hget_hset]
      by_cases hcond : (hget s.dir userID).getD "" ≠ "" ∧
          (hget s.dir userID).getD "" ≠ newEntity
      · rw [if_pos hcond, zscore_getG_zremG] at hne
        by_cases hgold : g = (hget s.dir userID).getD ""
        · rw [if_pos hgold] at hne
          by_cases hidu : id = userID
          · rw [if_pos hidu] at hne
            exact absurd rfl hne
          · rw [if_neg hidu] at hne
            rw [zscore_getG_zaddG, if_neg hcond.2, ← hgold] at hne
            rw [if_neg hidu]
            exact h2 g id hne
        · rw [if_neg hgold, zscore_getG_zaddG] at hne
          by_cases hgnew : g = newEntity
          · rw [if_pos hgnew] at hne
            by_cases hidu : id = userID
            · rw [if_pos hidu]
              exact ⟨by rw [hgnew], by rw [hgnew]; exact hnew⟩
            · rw [if_neg hidu] at hne
              rw [if_neg hidu]
              exact h2 g id (by rw [hgnew]; exact hne)
          · rw [if_neg hgnew] at hne
            have hown := h2 g id hne
            by_cases hidu : id = userID
            · exfalso
              apply hgold
              rw [hidu] at hown
              rw [hown.1]
              rfl
            · rw [if_neg hidu]
              exact hown
      · rw [if_neg hcond, zscore_getG_zaddG] at hne
        by_cases hgnew : g = newEntity
        · rw [if_pos hgnew] at hne
          by_cases hidu : id = userID
          · rw [if_pos hidu]
            exact ⟨by rw [hgnew], by rw [hgnew]; exact hnew⟩
          · rw [if_neg hidu] at hne
            rw [if_neg hidu]
            exact h2 g id (by rw [hgnew]; exact hne)
        · rw [if_neg hgnew] at hne
          have hown := h2 g id hne
          by_cases hidu : id = userID
          · exfalso
            rw [hidu] at hown
            have holdE : (hget s.dir userID).getD "" = g := by
              rw [hown.1]
              rfl
            rw [not_and_or] at hcond
            rcases hcond with hc | hc
            · push_neg at hc
              rw [holdE] at hc
              exact hown.2 hc
            · push_neg at hc
              rw [holdE] at hc
              exact hgnew hc
          · rw [if_neg hidu]
            exact hown
    · -- ScoresAgree
      intro g id hdir hgne
      dsimp only at hdir ⊢
      rw [hget_hset] at hdir
      by_cases hidu : id = userID
      · rw [if_pos hidu] at hdir
        injection hdir with hEg
        subst hidu
        by_cases hcond : (hget s.dir id).getD "" ≠ "" ∧
            (hget s.dir id).getD "" ≠ newEntity
        · rw [if_pos hcond, zscore_getG_zremG]
          have hx : ¬ g = (hget s.dir id).getD "" := by
            intro hh
            exact hcond.2 (hh.symm.trans hEg.symm)
          rw [if_neg hx, zscore_getG_zaddG, if_pos hEg.symm, if_pos rfl, hzs]
        · rw [if_neg hcond, zscore_getG_zaddG, if_pos hEg.symm, if_pos rfl, hzs]
      · rw [if_neg hidu] at hdir
        by_cases hcond : (hget s.dir userID).getD "" ≠ "" ∧
            (hget s.dir userID).getD "" ≠ newEntity
        · rw [if_pos hcond, zscore_getG_zremG]
          by_cases hgold : g = (hget s.dir userID).getD ""
          · rw [if_pos hgold, if_neg hidu, zscore_getG_zaddG,
              if_neg (hcond.2 : ¬ (hget s.dir userID).getD "" = newEntity),
              ← hgold]
            exact h3 g id hdir hgne
          · rw [if_neg hgold, zscore_getG_zaddG]
            by_cases hgnew : g = newEntity
            · rw [if_pos hgnew, if_neg hidu, ← hgnew]
              exact h3 g id hdir hgne
            · rw [if_neg hgnew]
              exact h3 g id hdir hgne
        · rw [if_neg hcond, zscore_getG_zaddG]
          by_cases hgnew : g = newEntity
          · rw [if_pos hgnew, if_neg hidu, ← hgnew]
            exact h3 g id hdir hgne
          · rw [if_neg hgnew]
            exact h3 g id hdir hgne
    · -- IntScores
      intro hfl id q hq
      dsimp only at hq
      exact h4 hfl id q hq

theorem lbinv_remove (cfg : Config) (s : LB) (userID : String) (s' : LB)
    (hInv : LBInv cfg s) (h : RemoveUser s userID = .ok s') : LBInv cfg s' := by
  obtain ⟨h1, h2, h3, h4⟩ := hInv
  unfold RemoveUser at h
  split at h
  · exact absurd h (by simp)
  · simp only [Except.ok.injEq] at h
    subst h
    refine ⟨?_, ?_, ?_, ?_⟩
    · -- GlobalSubDir
      intro id hne
      dsimp only at hne ⊢
      rw [zscore_zrem] at hne
      rw [hget_hdel]
      by_cases hidu : id = userID
      · rw [if_pos hidu] at hne
        exact absurd rfl hne
      · rw [if_neg hidu] at hne ⊢
        exact h1 id hne
    · -- GroupsOwned
      intro g id hne
      dsimp only at hne ⊢
      rw [hget_hdel]
      by_cases hE : (hget s.dir userID).getD "" = ""
      · rw [if_pos hE] at hne
        have hown := h2 g id hne
        by_cases hidu : id = userID
        · exfalso
          rw [hidu] at hown
          rw [hown.1] at hE
          exact hown.2 hE
        · rw [if_neg hidu]
          exact hown
      · rw [if_neg hE, zscore_getG_zremG] at hne
        by_cases hg : g = (hget s.dir userID).getD ""
        · rw [if_pos hg] at hne
          by_cases hidu : id = userID
          · rw [if_pos hidu] at hne
            exact absurd rfl hne
          · rw [if_neg hidu, ← hg] at hne
            rw [if_neg hidu]
            exact h2 g id hne
        · rw [if_neg hg] at hne
          have hown := h2 g id hne
          by_cases hidu : id = userID
          · exfalso
            apply hg
            rw [hidu] at hown
            rw [hown.1]
            rfl
          · rw [if_neg hidu]
            exact hown
    · -- ScoresAgree
      intro g id hdir hgne
      dsimp only at hdir ⊢
      rw [hget_hdel] at hdir
      by_cases hidu : id = userID
      · rw [if_pos hidu] at hdir
        exact absurd hdir (by simp)
      · rw [if_neg hidu] at hdir
        rw [zscore_zrem, if_neg hidu]
        by_cases hE : (hget s.dir userID).getD "" = ""
        · rw [if_pos hE]
          exact h3 g id hdir hgne
        · rw [if_neg hE, zscore_getG_zremG]
          by_cases hg : g = (hget s.dir userID).getD ""
          · rw [if_pos hg, if_neg hidu, ← hg]
            exact h3 g id hdir hgne
          · rw [if_neg hg]
            exact h3 g id hdir hgne
    · -- IntScores
      intro hfl id q hq
      dsimp only at hq
      rw [zscore_zrem] at hq
      by_cases hidu : id = userID
      · rw [if_pos hidu] at hq
        exact absurd hq (by simp)
      · rw [if_neg hidu] at hq
        exact h4 hfl id q hq

theorem lbinv_consistent {cfg : Config} {s : LB} (hInv : LBInv cfg s) :
    Consistent s := by
  obtain ⟨h1, h2, h3, h4⟩ := hInv
  intro id g hdir hgne
  refine ⟨h3 g id hdir hgne, ?_⟩
  intro g' hg'
  by_contra hc
  have hown := h2 g' id hc
  rw [hdir] at hown
  injection hown.1 with hgg
  exact hg' hgg.symm

theorem lbinv_step (cfg : Config) (s : LB) (op : Op) (s' : LB)
    (hInv : LBInv cfg s) (hsafe : safeOp s op = true)
    (h : applyOp cfg s op = .ok s') : LBInv cfg s' := by
  cases op with
  | add u =>
    refine lbinv_add cfg s u s' hInv ?_ h
    intro g hg hgne
    simp only [safeOp] at hsafe
    rw [hg] at hsafe
    simp only [Bool.or_eq_true, decide_eq_true_eq] at hsafe
    rcases hsafe with hs | hs
    · exact absurd hs hgne
    · exact hs
  | incr userID entity d =>
    refine lbinv_incr cfg s userID entity d s' hInv ?_ h
    intro g hg
    simp only [safeOp] at hsafe
    rw [hg] at hsafe
    simpa using hsafe
  | update userID newEntity =>
    exact lbinv_update cfg s userID newEntity s' hInv h
  | remove userID =>
    exact lbinv_remove cfg s userID s' hInv h

theorem runAll_consistent (cfg : Config) :
    ∀ (ops : List Op) (s : LB) (states : List LB),
      LBInv cfg s → safeSeq cfg s ops = true →
      runAll cfg s ops = some states →
      ∀ s' ∈ states, Consistent s' := by
  intro ops
  induction ops with
  | nil =>
    intro s states _ _ hrun s' hs'
    simp only [runAll, Option.some.injEq] at hrun
    subst hrun
    simp at hs'
  | cons op rest ih =>
    intro s states hInv hsafe hrun
    simp only [runAll] at hrun
    simp only [safeSeq, Bool.and_eq_true] at hsafe
    obtain ⟨hs1, hs2⟩ := hsafe
    rcases happ : applyOp cfg s op with e | s1
    · rw [happ] at hrun
      exact absurd hrun (by simp)
    · rw [happ] at hrun hs2
      dsimp only at hrun hs2
      rcases hrest : runAll cfg s1 rest with _ | sts
      · rw [hrest] at hrun
        exact absurd hrun (by simp)
      · rw [hrest] at hrun
        simp only [Option.map_some', Option.some.injEq] at hrun
        subst hrun
        have hInv1 := lbinv_step cfg s op s1 hInv hs1 happ
        intro s' hs'
        rcases List.mem_cons.mp hs' with rfl | hs'
        · exact lbinv_consistent hInv1
        · exact ih s1 sts hInv1 hs2 hrest s' hs'

/-- Claim C1 (amended): the cross-structure consistency invariant — every
identity whose directory entry is a non-empty group `G` has equal scores in
the global store and in `G`'s store and is absent from every other group's
store — holds after each operation of a successful run from an empty
namespace, provided every `AddUser`/`IncrementScore` call is
group-consistent: it passes the identity's current directory group whenever
a non-empty one is recorded (`IncrementScore` must match the recorded entry
exactly, also when it is empty).  Without that restriction the claim fails,
because neither call removes the identity's stale entry from its previous
group's store. -/
theorem C1_consistency_amended (cfg : Config) (ops : List Op)
    (states : List LB) (hsafe : safeSeq cfg LB.empty ops = true)
    (hrun : runAll cfg LB.empty ops = some states) :
    ∀ s' ∈ states, Consistent s' :=
  runAll_consistent cfg ops LB.empty states (lbinv_empty cfg) hsafe hrun

theorem C1_consistency_witness :
    Consistent (LB.mk [("u", 1)] [("u", "US")] [("US", [("u", 1)])]) :=
  C1_consistency_amended cfgFloat
    [Op.add { ID := "u", Entity := "US", Score := 1 },
     Op.incr "u" "US" 5, Op.update "u" "UK", Op.remove "u"]
    ((runAll cfgFloat LB.empty
        [Op.add { ID := "u", Entity := "US", Score := 1 },
         Op.incr "u" "US" 5, Op.update "u" "UK", Op.remove "u"]).getD [])
    (by decide) rfl
    (LB.mk [("u", 1)] [("u", "US")] [("US", [("u", 1)])])
    (List.Mem.head _)

/-- Claim C1, counterexample to the unrestricted statement: from an empty
namespace, `AddUser("u","US",1)` then `AddUser("u","UK",2)` both succeed,
yet afterwards the directory maps `"u"` to `"UK"` while `"u"` still sits in
group `"US"`'s store with score 1 — it is not absent from every other
group's store. -/
theorem C1_counterexample :
    ¬ (∀ states, runAll cfgFloat LB.empty
        [Op.add { ID := "u", Entity := "US", Score := 1 },
         Op.add { ID := "u", Entity := "UK", Score := 2 }] = some states →
        ∀ s' ∈ states, Consistent s') := by
  intro h
  have h2 := h [LB.mk [("u", 1)] [("u", "US")] [("US", [("u", 1)])],
                LB.mk [("u", 2)] [("u", "UK")]
                  [("US", [("u", 1)]), ("UK", [("u", 2)])]] rfl
  have h3 := h2 (LB.mk [("u", 2)] [("u", "UK")]
      [("US", [("u", 1)]), ("UK", [("u", 2)])])
    (List.mem_cons_of_mem _ (List.mem_cons_self _ _))
  have h4 := h3 "u" "UK" rfl (by decide)
  have h5 := h4.2 "US" (by decide)
  exact absurd h5 (by decide)
